import Mathlib

/-!
Verification of the twoDB storage engine (Go package `storage`) against its
specification.  The on-disk file is a line-oriented text format; we model the
file as its list of lines (every line is newline-terminated in the real file,
and none of the strings written by the code contains a newline, so substring
searches performed by the Go code are located here at line granularity).
Go maps are modelled as association lists in insertion order, Go errors as
`Except String`, and Go string comparison (byte-lexicographic on UTF-8, which
coincides with code-point-lexicographic order) as `goLt` below.  Error message
texts follow the source up to quoting.
-/

/-- Byte-lexicographic comparison on character lists, the model of the Go
string `<` operator used by `sort.SearchStrings`. -/
def goLtC : List Char → List Char → Bool
  | [], [] => false
  | [], _ :: _ => true
  | _ :: _, [] => false
  | a :: as, b :: bs =>
    if a.toNat < b.toNat then true
    else if b.toNat < a.toNat then false
    else goLtC as bs

/-- Go string comparison `a < b`. -/
def goLt (a b : String) : Bool := goLtC a.toList b.toList

/-- Substring test on character lists (model of `strings.Contains` /
`strings.Index` at line granularity). -/
def infixOfC (pat : List Char) : List Char → Bool
  | [] => pat.isEmpty
  | c :: rest => pat.isPrefixOf (c :: rest) || infixOfC pat rest

/-- Model of `strings.Contains s pat`. -/
def containsStr (s pat : String) : Bool := infixOfC pat.toList s.toList

/-- Model of `strings.HasPrefix s pre` (kernel-reducible, unlike
`String.startsWith`). -/
def startsWithStr (s pre : String) : Bool := pre.toList.isPrefixOf s.toList

/-- Split a character list at the first occurrence of `sep`
(model of `strings.SplitN(line, sep, 2)` when it yields two parts;
`none` when `sep` does not occur). -/
def splitCharsFirst (sep : List Char) : List Char → Option (List Char × List Char)
  | [] => none
  | c :: rest =>
    if sep.isPrefixOf (c :: rest) then some ([], (c :: rest).drop sep.length)
    else (splitCharsFirst sep rest).map (fun p => (c :: p.1, p.2))

/-- Model of `strings.SplitN(s, sep, 2)` restricted to the two-part case. -/
def splitFirst (s sep : String) : Option (String × String) :=
  (splitCharsFirst sep.toList s.toList).map (fun p => (String.mk p.1, String.mk p.2))

/-- Split a character list on every occurrence of the single character `sep`
(model of `strings.Split(s, sep)` for a one-character separator). -/
def splitOnC (sep : Char) : List Char → List (List Char)
  | [] => [[]]
  | c :: rest =>
    if c = sep then [] :: splitOnC sep rest
    else
      match splitOnC sep rest with
      | [] => [[c]]
      | p :: ps => (c :: p) :: ps

/-- Model of `strings.Split(s, sep)` for a one-character separator. -/
def splitStr (s : String) (sep : Char) : List String :=
  (splitOnC sep s.toList).map String.mk

/-- Model of `strings.Join(parts, sep)` for a one-character separator. -/
def joinStr (parts : List String) (sep : Char) : String :=
  match parts with
  | [] => ""
  | p :: ps => ps.foldl (fun acc q => acc ++ String.mk [sep] ++ q) p

/-- Whitespace test used by `strings.TrimSpace` (space, tab, newline,
carriage return; the only whitespace that can occur in this format). -/
def goIsSpace (c : Char) : Bool := c = ' ' || c = '\t' || c = '\n' || c = '\r'

/-- Model of `strings.TrimSpace`. -/
def trimStr (s : String) : String :=
  String.mk (((s.toList.dropWhile goIsSpace).reverse.dropWhile goIsSpace).reverse)

/-- Decimal digits of `n`, most significant first; the fuel argument makes the
recursion structural (any fuel above the digit count gives the same answer). -/
def natPrintAux : Nat → Nat → List Char
  | 0, _ => []
  | fuel + 1, n =>
    if n < 10 then [Char.ofNat (48 + n)]
    else natPrintAux fuel (n / 10) ++ [Char.ofNat (48 + n % 10)]

/-- Model of `fmt.Sprintf("%d", n)` for unsigned integers. -/
def natPrint (n : Nat) : String := String.mk (natPrintAux (n + 1) n)

/-- Numeric value of a digit character. -/
def digitVal (c : Char) : Nat := c.toNat - 48

/-- Value of a list of decimal digit characters, most significant first. -/
def digitsVal (l : List Char) : Nat := l.foldl (fun acc c => 10 * acc + digitVal c) 0

/-- Model of `fmt.Sscanf(s, "%d", &v)`: reads the leading run of decimal
digits; on a scan failure the variable keeps its previous value `cur`. -/
def parseNatOr (cur : Nat) (s : String) : Nat :=
  let ds := s.toList.takeWhile Char.isDigit
  if ds.isEmpty then cur else digitsVal ds

/-- Model of `strconv.ParseUint(s, 10, 32)` with the error ignored: the whole
string must be a nonempty digit run within 32 bits, otherwise the Go call
returns 0 on a syntax error and the 32-bit maximum on a range error. -/
def parseUintFull (s : String) : Nat :=
  let l := s.toList
  if l.isEmpty then 0
  else if l.all Char.isDigit then
    let v := digitsVal l
    if v < 2 ^ 32 then v else 2 ^ 32 - 1
  else 0

/-- Model of `strconv.ParseBool` with the error ignored (false on failure). -/
def parseBoolD (s : String) : Bool :=
  s = "1" || s = "t" || s = "T" || s = "true" || s = "TRUE" || s = "True"

/-- Header of a page (`PageHeader` in the source). -/
structure PageHeader where
  pageLSN : Nat
  pageID : Nat
  pageType : String
deriving DecidableEq

/-- A page: typed header plus string-keyed payload (`Page` in the source).
The Go `map[string]string` is modelled as an association list in insertion
order; `mapInsert`, `mapLookup` and `mapRemove` below give it map semantics. -/
structure Page where
  header : PageHeader
  data : List (String × String)
deriving DecidableEq

/-- Map update `m[k] = v` on the association-list model of a Go map. -/
def mapInsert (m : List (String × String)) (k v : String) : List (String × String) :=
  match m with
  | [] => [(k, v)]
  | (k0, v0) :: rest => if k0 = k then (k, v) :: rest else (k0, v0) :: mapInsert rest k v

/-- Map lookup `m[k]` on the association-list model of a Go map. -/
def mapLookup (m : List (String × String)) (k : String) : Option String :=
  match m with
  | [] => none
  | (k0, v0) :: rest => if k0 = k then some v0 else mapLookup rest k

/-- Map deletion `delete(m, k)` on the association-list model of a Go map. -/
def mapRemove (m : List (String × String)) (k : String) : List (String × String) :=
  match m with
  | [] => []
  | (k0, v0) :: rest => if k0 = k then rest else (k0, v0) :: mapRemove rest k

/-- State of a `TextFileHandler`: the backing file (as its list of lines) plus
the in-memory bookkeeping fields of the Go struct.  The `FilePath`, `File` and
mutex fields carry no model content. -/
structure TextFileHandler where
  lines : List String
  pageSize : Nat
  pageCount : Nat
  deallocatedPages : List Nat
deriving DecidableEq

/-- Section marker constants of the source. -/
def HeaderSection : String := "# DATABASE HEADER"

/-- Page section marker. -/
def PageSection : String := "# PAGE"

/-- Default page size constant of the source. -/
def DefaultPageSize : Nat := 4096

/-- Lines written by `NewTextFileHandler` into a freshly created file. -/
def initialLines : List String :=
  [HeaderSection, "PAGESIZE=4096", "ENCODING=UTF-8", "VERSION=1.0", "PAGES=0", ""]

/-- One step of the `LoadMetadata` header parse for a `KEY=VALUE` line. -/
def loadMetaLine (st : TextFileHandler) (line : String) : TextFileHandler :=
  match splitFirst line "=" with
  | none => st
  | some (k0, v0) =>
    let k := trimStr k0
    let v := trimStr v0
    if k = "PAGESIZE" then { st with pageSize := parseNatOr st.pageSize v }
    else if k = "PAGES" then { st with pageCount := parseNatOr st.pageCount v }
    else if k = "DEALLOCATED_PAGES" then
      { st with deallocatedPages :=
          st.deallocatedPages ++ (splitStr v ',').map (parseNatOr 0) }
    else st

/-- Scanner loop of `TextFileHandler.LoadMetadata`: walks the lines, enters
header mode at the header marker, stops at the first page marker. -/
def loadMetaScan : List String → Bool → TextFileHandler → TextFileHandler
  | [], _, st => st
  | line :: rest, inHeader, st =>
    if line = HeaderSection then loadMetaScan rest true st
    else if startsWithStr line PageSection then st
    else if inHeader && line ≠ "" then loadMetaScan rest inHeader (loadMetaLine st line)
    else loadMetaScan rest inHeader st

/-- Model of `TextFileHandler.LoadMetadata`. -/
def TextFileHandler.LoadMetadata (st : TextFileHandler) : TextFileHandler :=
  loadMetaScan st.lines false st

/-- Model of `NewTextFileHandler`: `none` stands for a path with no existing
file (the initial header is written), `some ls` for an existing file with
content `ls`; either way the handler starts from the defaults of the Go
struct literal and then runs `LoadMetadata`. -/
def NewTextFileHandler (existing : Option (List String)) : TextFileHandler :=
  let base : TextFileHandler :=
    { lines := existing.getD initialLines
      pageSize := DefaultPageSize
      pageCount := 0
      deallocatedPages := [] }
  base.LoadMetadata

/-- Parse of one line inside the target page section of `ReadPage`
(the `switch` on the key of a `Key: Value` line). -/
def readPageLine (pg : Page) (line : String) : Page :=
  match splitFirst line ": " with
  | none => pg
  | some (k0, v0) =>
    let k := trimStr k0
    let v := trimStr v0
    if k = "LSN" then { pg with header := { pg.header with pageLSN := parseNatOr pg.header.pageLSN v } }
    else if k = "Type" then { pg with header := { pg.header with pageType := v } }
    else if k = "PageID" then pg
    else { pg with data := mapInsert pg.data k v }

/-- Scanner loop of `ReadPage`: `found`/`inTarget` are the `PageFound` and
`InTargetPage` flags; the loop breaks at the page marker that follows the
target section. -/
def readPageScan (marker : String) : List String → Bool → Bool → Page → Bool × Page
  | [], found, _, pg => (found, pg)
  | line :: rest, found, inTarget, pg =>
    if startsWithStr line PageSection && inTarget then (found, pg)
    else
      let found := found || containsStr line marker
      let inTarget := inTarget || containsStr line marker
      let pg := if inTarget && line ≠ "" then readPageLine pg line else pg
      readPageScan marker rest found inTarget pg

/-- Model of `TextFileHandler.ReadPage`. -/
def TextFileHandler.ReadPage (st : TextFileHandler) (pageID : Nat) : Except String Page :=
  if pageID = 0 || st.pageCount < pageID then
    .error ("Invalid PageID: " ++ natPrint pageID ++ ", PageCount: " ++ natPrint st.pageCount)
  else
    let start : Page := { header := { pageLSN := 0, pageID := pageID, pageType := "" }, data := [] }
    let marker := "PageID: " ++ natPrint pageID
    match readPageScan marker st.lines false false start with
    | (false, _) => .error ("Page " ++ natPrint pageID ++ " not found")
    | (true, pg) => .ok pg

/-- Serialized lines of one page section as written by `WritePage`; the
payload is emitted in association-list order (the Go map iteration order is
unspecified, and no observable behaviour depends on it). -/
def pageLines (pg : Page) : List String :=
  [PageSection,
   "PageID: " ++ natPrint pg.header.pageID,
   "LSN: " ++ natPrint pg.header.pageLSN,
   "Type: " ++ pg.header.pageType]
  ++ pg.data.map (fun kv => kv.1 ++ ": " ++ kv.2)

/-- Index of the first line satisfying `p`, searching from index `from0`. -/
def firstIdxFrom (p : String → Bool) (from0 : Nat) : List String → Option Nat
  | [] => none
  | l :: rest =>
    match from0 with
    | 0 => if p l then some 0 else (firstIdxFrom p 0 rest).map (· + 1)
    | f + 1 => (firstIdxFrom p f rest).map (· + 1)

/-- Index of the last line satisfying `p`. -/
def lastIdxOf (p : String → Bool) : List String → Option Nat
  | [] => none
  | l :: rest =>
    match lastIdxOf p rest with
    | some i => some (i + 1)
    | none => if p l then some 0 else none

/-- Replacement of the first occurrence of `pat` among the lines
(model of `strings.Replace(content, pat, repl, 1)`; the patterns involved,
`PAGES=n`, never span a line break). -/
def replaceFirstLine (pat repl : String) : List String → List String
  | [] => []
  | l :: rest =>
    match splitCharsFirst pat.toList l.toList with
    | some (a, b) => String.mk (a ++ repl.toList ++ b) :: rest
    | none => l :: replaceFirstLine pat repl rest

/-- Model of `TextFileHandler.WritePage`.  The page body replaces the section
around the first line containing `PageID: <id>` (from the preceding `# PAGE`
marker to the next one), or is appended after a blank separator line if that
marker does not occur; if the id exceeds the recorded page count the
`PAGES=` header field is rewritten alongside.  In the one branch where the Go
code would slice with a negative index (a marker line with no preceding page
marker, impossible for files this code writes) the model returns an error. -/
def TextFileHandler.WritePage (st : TextFileHandler) (pg : Page) : Except String TextFileHandler :=
  let newLines := pageLines pg
  let marker := "PageID: " ++ natPrint pg.header.pageID
  let body : Except String (List String) :=
    match firstIdxFrom (fun l => containsStr l marker) 0 st.lines with
    | some m =>
      match lastIdxOf (fun l => containsStr l PageSection) (st.lines.take m) with
      | some s =>
        match firstIdxFrom (fun l => containsStr l PageSection) (s + 1) st.lines with
        | some e => .ok (st.lines.take s ++ newLines ++ st.lines.drop e)
        | none => .ok (st.lines.take s ++ newLines)
      | none => .error "slice bounds out of range"
    | none => .ok (st.lines ++ [""] ++ newLines)
  body.map (fun ls =>
    if st.pageCount < pg.header.pageID then
      { st with
          lines := replaceFirstLine ("PAGES=" ++ natPrint st.pageCount)
                     ("PAGES=" ++ natPrint pg.header.pageID) ls
          pageCount := pg.header.pageID }
    else { st with lines := ls })

/-- Model of `TextFileHandler.AllocatePage`: pops the head of the free list if
one is queued, else increments the monotonic counter; no line of the file is
touched. -/
def TextFileHandler.AllocatePage (st : TextFileHandler) : TextFileHandler × Page :=
  match st.deallocatedPages with
  | pid :: rest =>
    ({ st with deallocatedPages := rest },
     { header := { pageLSN := 0, pageID := pid, pageType := "" }, data := [] })
  | [] =>
    ({ st with pageCount := st.pageCount + 1 },
     { header := { pageLSN := 0, pageID := st.pageCount + 1, pageType := "" }, data := [] })

/-- A record of a Data page (`Record` in the source). -/
structure Record where
  entryIndex : Nat
  fields : List String
deriving DecidableEq

/-- Model of `Page.AddRecord`: bumps the `EntryIndex` counter, stores the
pipe-joined fields under `Entry-<n>`, and returns the new entry index. -/
def Page.AddRecord (pg : Page) (fields : List String) : Except String (Page × Nat) :=
  if pg.header.pageType ≠ "Data" then .error "Not a Data Page"
  else
    let idx := match mapLookup pg.data "EntryIndex" with
      | some s => parseNatOr 0 s
      | none => 0
    let idx := idx + 1
    let d1 := mapInsert pg.data "EntryIndex" (natPrint idx)
    let d2 := mapInsert d1 ("Entry-" ++ natPrint idx) (joinStr fields '|')
    .ok ({ pg with data := d2 }, idx)

/-- Model of `Page.GetRecord`. -/
def Page.GetRecord (pg : Page) (entryIndex : Nat) : Except String Record :=
  if pg.header.pageType ≠ "Data" then .error "Not a data page"
  else
    match mapLookup pg.data ("Entry-" ++ natPrint entryIndex) with
    | none => .error ("Record not found on page: EntryIndex " ++ natPrint entryIndex)
    | some s => .ok { entryIndex := entryIndex, fields := splitStr s '|' }

/-- Model of `Page.DeleteRecord`. -/
def Page.DeleteRecord (pg : Page) (entryIndex : Nat) : Except String Page :=
  if pg.header.pageType ≠ "Data" then .error "Not a data page"
  else if (mapLookup pg.data ("Entry-" ++ natPrint entryIndex)).isNone then
    .error ("Record to delete not found on page: EntryIndex " ++ natPrint entryIndex)
  else .ok { pg with data := mapRemove pg.data ("Entry-" ++ natPrint entryIndex) }

/-- Order constant of the B+ tree (`BTreeOrder` in the source). -/
def BTreeOrder : Nat := 4

/-- Decoded view of an Index page (`BTreeNode` in the source). -/
structure BTreeNode where
  page : Page
  isLeaf : Bool
  keys : List String
  pointers : List String
deriving DecidableEq

/-- Model of `BPlusTree.readNode`: reads the page and decodes `IsLeaf`,
`Keys` and `Pointers` (children of internal nodes are not deserialized by
the source either). -/
def BPlusTree.readNode (st : TextFileHandler) (pageID : Nat) : Except String BTreeNode :=
  (st.ReadPage pageID).map (fun pg =>
    { page := pg
      isLeaf := parseBoolD ((mapLookup pg.data "IsLeaf").getD "")
      keys := match mapLookup pg.data "Keys" with
        | some s => if s ≠ "" then splitStr s ',' else []
        | none => []
      pointers := match mapLookup pg.data "Pointers" with
        | some s => if s ≠ "" then splitStr s ',' else []
        | none => [] })

/-- Model of `BPlusTree.writeNode`: re-encodes the node fields into its page
and writes the page. -/
def BPlusTree.writeNode (st : TextFileHandler) (node : BTreeNode) : Except String TextFileHandler :=
  let d1 := mapInsert node.page.data "IsLeaf" (if node.isLeaf then "true" else "false")
  let d2 := mapInsert d1 "Keys" (joinStr node.keys ',')
  let d3 := mapInsert d2 "Pointers" (joinStr node.pointers ',')
  st.WritePage { node.page with data := d3 }

/-- Loop of Go `sort.Search` specialised to `sort.SearchStrings`: binary
search for the least index whose element is not below `key`.  The fuel makes
the recursion structural; `searchStrings` passes fuel covering the interval. -/
def searchLoop (keys : List String) (key : String) : Nat → Nat → Nat → Nat
  | 0, i, _ => i
  | fuel + 1, i, j =>
    if i < j then
      if goLt (keys.getD ((i + j) / 2) "") key then searchLoop keys key fuel ((i + j) / 2 + 1) j
      else searchLoop keys key fuel i ((i + j) / 2)
    else i

/-- Model of `sort.SearchStrings(keys, key)`. -/
def searchStrings (keys : List String) (key : String) : Nat :=
  searchLoop keys key keys.length 0 keys.length

/-- Insertion splice `l[:i] ++ [x] ++ l[i:]` used by `BPlusTree.Insert` for
both the key list and the pointer list. -/
def spliceAt (l : List String) (i : Nat) (x : String) : List String :=
  l.take i ++ x :: l.drop i

/-- Removal splice `l[:i] ++ l[i+1:]` used by `BPlusTree.Delete`. -/
def removeAt (l : List String) (i : Nat) : List String :=
  l.take i ++ l.drop (i + 1)

/-- First index whose key equals `key` (the `foundIndex` scan of
`BPlusTree.Delete`); `none` models the `-1` outcome. -/
def findKeyIdx (keys : List String) (key : String) : Option Nat :=
  match keys with
  | [] => none
  | k :: rest => if k = key then some 0 else (findKeyIdx rest key).map (· + 1)

/-- Model of `BPlusTree.Insert` (the simplified source algorithm): inserts
into the root when it is a leaf with fewer than `BTreeOrder - 1` keys, and
otherwise prints a warning and succeeds without touching any page. -/
def BPlusTree.Insert (st : TextFileHandler) (rootPageID : Nat) (key : String)
    (pageID entryIndex : Nat) : TextFileHandler × Except String Unit :=
  match BPlusTree.readNode st rootPageID with
  | .error e => (st, .error e)
  | .ok node =>
    if node.isLeaf && node.keys.length < BTreeOrder - 1 then
      let pointer := natPrint pageID ++ ":" ++ natPrint entryIndex
      let i := searchStrings node.keys key
      let node := { node with keys := spliceAt node.keys i key
                              pointers := spliceAt node.pointers i pointer }
      match BPlusTree.writeNode st node with
      | .error e => (st, .error e)
      | .ok st2 => (st2, .ok ())
    else (st, .ok ())

/-- Model of `BPlusTree.Find`: errors on a non-leaf root, returns the parsed
pointer of the first exact key match (the same first-match scan as
`findKeyIdx`) and `(0, 0)` with no error otherwise. -/
def BPlusTree.Find (st : TextFileHandler) (rootPageID : Nat) (key : String) :
    Except String (Nat × Nat) :=
  match BPlusTree.readNode st rootPageID with
  | .error e => .error e
  | .ok node =>
    if !node.isLeaf then .error "cannot find in non-leaf root (not implemented)"
    else
      match findKeyIdx node.keys key with
      | some i =>
        let parts := splitStr (node.pointers.getD i "") ':'
        .ok (parseUintFull (parts.getD 0 ""), parseUintFull (parts.getD 1 ""))
      | none => .ok (0, 0)

/-- Model of `BPlusTree.Delete` (the simplified source algorithm): errors on
a non-leaf root, removes the key and its parallel pointer from the root leaf
when present, errors with the not-found message otherwise. -/
def BPlusTree.Delete (st : TextFileHandler) (rootPageID : Nat) (key : String) :
    TextFileHandler × Except String Unit :=
  match BPlusTree.readNode st rootPageID with
  | .error e => (st, .error e)
  | .ok node =>
    if !node.isLeaf then (st, .error "cannot delete from non-leaf root (not implemented)")
    else
      match findKeyIdx node.keys key with
      | some i =>
        let node := { node with keys := removeAt node.keys i
                                pointers := removeAt node.pointers i }
        match BPlusTree.writeNode st node with
        | .error e => (st, .error e)
        | .ok st2 => (st2, .ok ())
      | none => (st, .error "key not found for deletion")

/-- Model of `NewBPlusTree`: returns the handler together with the root page
id; if page 1 cannot be read, a fresh root leaf page is allocated,
initialized and written. -/
def NewBPlusTree (st : TextFileHandler) : Except String (TextFileHandler × Nat) :=
  match st.ReadPage 1 with
  | .ok pg => .ok (st, pg.header.pageID)
  | .error _ =>
    let (st1, pg) := st.AllocatePage
    let pg := { pg with header := { pg.header with pageType := "Index" } }
    let pg := { pg with data := mapInsert (mapInsert (mapInsert pg.data "IsLeaf" "true") "Keys" "") "Pointers" "" }
    (st1.WritePage pg).map (fun st2 => (st2, pg.header.pageID))

/-- State of the `Database` facade: the file handler plus the fixed root page
id of its B+ tree index (`Database.Index.RootPageID`). -/
structure Database where
  fileHandler : TextFileHandler
  rootPageID : Nat
deriving DecidableEq

/-- Model of `OpenDatabase`: `NewTextFileHandler` followed by `NewBPlusTree`. -/
def OpenDatabase (existing : Option (List String)) : Except String Database :=
  (NewBPlusTree (NewTextFileHandler existing)).map
    (fun p => { fileHandler := p.1, rootPageID := p.2 })

/-- Model of `Database.Insert`: rejects a key the index already resolves to a
nonzero page (the `Find` error, if any, is discarded exactly as in the
source), then allocates a Data page, adds the record `[ID, Data]`, writes the
page and inserts the key into the index. -/
def Database.Insert (db : Database) (id data : String) : Database × Except String Unit :=
  let pid := match BPlusTree.Find db.fileHandler db.rootPageID id with
    | .ok p => p.1
    | .error _ => 0
  if pid ≠ 0 then (db, .error ("record with ID " ++ id ++ " already exists"))
  else
    let (h1, pg) := db.fileHandler.AllocatePage
    let pg := { pg with header := { pg.header with pageType := "Data" } }
    match pg.AddRecord [id, data] with
    | .error e => ({ db with fileHandler := h1 }, .error e)
    | .ok (pg2, entryIndex) =>
      match h1.WritePage pg2 with
      | .error e => ({ db with fileHandler := h1 }, .error e)
      | .ok h2 =>
        let (h3, r) := BPlusTree.Insert h2 db.rootPageID id pg2.header.pageID entryIndex
        ({ db with fileHandler := h3 }, r)

/-- Model of `Database.Get`: a `(0, _)` index answer is returned as `none`
with no error (the nil record, nil error pair of the source). -/
def Database.Get (db : Database) (id : String) : Except String (Option Record) :=
  match BPlusTree.Find db.fileHandler db.rootPageID id with
  | .error e => .error e
  | .ok (pid, entryIndex) =>
    if pid = 0 then .ok none
    else
      match db.fileHandler.ReadPage pid with
      | .error e => .error e
      | .ok pg => (pg.GetRecord entryIndex).map some

/-- Model of `Database.Delete`: resolves the key, errors when absent, else
deletes the record from its Data page, writes the page back and removes the
key from the index. -/
def Database.Delete (db : Database) (id : String) : Database × Except String Unit :=
  match BPlusTree.Find db.fileHandler db.rootPageID id with
  | .error e => (db, .error e)
  | .ok (pid, entryIndex) =>
    if pid = 0 then (db, .error ("record with ID " ++ id ++ " not found"))
    else
      match db.fileHandler.ReadPage pid with
      | .error e => (db, .error e)
      | .ok pg =>
        match pg.DeleteRecord entryIndex with
        | .error e => (db, .error e)
        | .ok pg2 =>
          match db.fileHandler.WritePage pg2 with
          | .error e => (db, .error e)
          | .ok h2 =>
            let (h3, r) := BPlusTree.Delete h2 db.rootPageID id
            ({ db with fileHandler := h3 }, r)

/-- Decidable equality for `Except`, used to compare operation results. -/
instance {ε α : Type} [DecidableEq ε] [DecidableEq α] : DecidableEq (Except ε α) := fun a b =>
  match a, b with
  | .ok x, .ok y =>
    if h : x = y then .isTrue (by rw [h]) else .isFalse (by intro hc; cases hc; exact h rfl)
  | .error x, .error y =>
    if h : x = y then .isTrue (by rw [h]) else .isFalse (by intro hc; cases hc; exact h rfl)
  | .ok _, .error _ => .isFalse (by intro hc; cases hc)
  | .error _, .ok _ => .isFalse (by intro hc; cases hc)

/-- Strictly-ascending test on a key list under Go string order (the
specification's "keys within a node strictly ascending"). -/
def strictAsc : List String → Bool
  | [] => true
  | [_] => true
  | a :: b :: rest => goLt a b && strictAsc (b :: rest)

/-- Well-formedness of one payload entry for the write/read round trip: key
and value already whitespace-trimmed, the key free of the `": "` separator
and of the three reserved header keys, and the serialized line not beginning
with the page section marker. -/
def WfEntry (k v : String) : Prop :=
  trimStr k = k ∧ trimStr v = v ∧
  containsStr k ": " = false ∧
  k ≠ "LSN" ∧ k ≠ "Type" ∧ k ≠ "PageID" ∧
  startsWithStr (k ++ ": " ++ v) PageSection = false

instance (k v : String) : Decidable (WfEntry k v) := by
  unfold WfEntry; infer_instance

/-- Test of `Database.Delete`/`Database.Get` reaching the in-band "absent"
answer: the index lookup succeeds and yields page id 0. -/
def findsAbsent (db : Database) (id : String) : Bool :=
  match BPlusTree.Find db.fileHandler db.rootPageID id with
  | .ok p => p.1 = 0
  | .error _ => false

/-- Handler and root page id produced by opening a fresh store and building
its B+ tree (the error branch is unreachable and only totalizes the match). -/
def treeInit : TextFileHandler × Nat :=
  match NewBPlusTree (NewTextFileHandler none) with
  | .ok p => p
  | .error _ => (NewTextFileHandler none, 0)

/-- Fresh index store. -/
def treeS0 : TextFileHandler := treeInit.1

/-- Insert of "a" with pointer (10, 1). -/
def treeIns1 := BPlusTree.Insert treeS0 1 "a" 10 1

/-- Store after the first insert. -/
def treeS1 := treeIns1.1

/-- Insert of "b" with pointer (11, 1). -/
def treeIns2 := BPlusTree.Insert treeS1 1 "b" 11 1

/-- Store after the second insert. -/
def treeS2 := treeIns2.1

/-- Insert of "c" with pointer (12, 1). -/
def treeIns3 := BPlusTree.Insert treeS2 1 "c" 12 1

/-- Store after the third insert: the root leaf now holds `BTreeOrder - 1`
keys. -/
def treeS3 := treeIns3.1

/-- Insert of "d" with pointer (13, 1), the fourth distinct key. -/
def treeIns4 := BPlusTree.Insert treeS3 1 "d" 13 1

/-- Store after the fourth insert. -/
def treeS4 := treeIns4.1

/-- Insert of "e" with pointer (14, 1), the fifth distinct key. -/
def treeIns5 := BPlusTree.Insert treeS4 1 "e" 14 1

/-- Store after the fifth insert. -/
def treeS5 := treeIns5.1

/-- Second insert of the already-present key "a", with pointer (20, 2). -/
def treeDupIns := BPlusTree.Insert treeS1 1 "a" 20 2

/-- Fresh database (the error branch is unreachable). -/
def dbFresh : Database :=
  match OpenDatabase none with
  | .ok db => db
  | .error _ => { fileHandler := NewTextFileHandler none, rootPageID := 0 }

/-- First facade insert of scenario C. -/
def c3step1 := Database.Insert dbFresh "user:1" "X"

/-- Database after the first facade insert. -/
def c3db1 := c3step1.1

/-- Second facade insert of scenario C, with the same key. -/
def c3step2 := Database.Insert c3db1 "user:1" "Y"

/-- Page written for the round-trip counterexample: its payload uses the
reserved key `Type`. -/
def c4page : Page :=
  { header := { pageLSN := 0, pageID := 1, pageType := "Data" }, data := [("Type", "X")] }

/-- Round trip of `c4page` through a fresh store: allocate, write, read back. -/
def c4roundtrip : Except String Page :=
  match ((NewTextFileHandler none).AllocatePage).1.WritePage c4page with
  | .error e => .error e
  | .ok st => st.ReadPage 1

/-- Page with id 21 written into a fresh store for the `ReadPage` marker
counterexample. -/
def c5page : Page :=
  { header := { pageLSN := 0, pageID := 21, pageType := "Data" }, data := [("EntryIndex", "1")] }

/-- Store holding only page 21 (the error branch is unreachable). -/
def c5st : TextFileHandler :=
  match (NewTextFileHandler none).WritePage c5page with
  | .ok st => st
  | .error _ => NewTextFileHandler none

/-- Pre-existing store file whose header records seven pages and one freed
page id. -/
def c6file : List String :=
  ["# DATABASE HEADER", "PAGESIZE=4096", "ENCODING=UTF-8", "VERSION=1.0",
   "PAGES=7", "DEALLOCATED_PAGES=5", ""]

/-- Handler opened on `c6file`. -/
def c6st : TextFileHandler := NewTextFileHandler (some c6file)

/-- Allocation that consumes the queued freed page id. -/
def c6alloc := c6st.AllocatePage

/-- C1: on the code as written the claim fails.  Inserting the distinct keys
"a", "b", "c", "d" all reports success, but the fourth insert (root leaf at
`BTreeOrder - 1` keys) silently discards its key and pointer, so the Find
that follows returns the in-band absent answer `(0, 0)` instead of the most
recently inserted pointer `(13, 1)`; the first three keys still resolve. -/
theorem insert_sequence_find_divergence :
    treeIns1.2 = .ok () ∧ treeIns2.2 = .ok () ∧ treeIns3.2 = .ok () ∧
    BPlusTree.Find treeS3 1 "a" = .ok (10, 1) ∧
    BPlusTree.Find treeS3 1 "c" = .ok (12, 1) ∧
    treeIns4.2 = .ok () ∧
    treeS4 = treeS3 ∧
    BPlusTree.Find treeS4 1 "d" = .ok (0, 0) := by
  decide

/-- C2: on the code as written the claim fails.  With `BTreeOrder = 4`,
after inserting "a", "b", "c", "d" the root page is still a leaf holding the
three keys "a", "b", "c" — no split happened, no internal root exists and
the store is byte-for-byte unchanged by the fourth insert — and after the
fifth insert Find("e") yields the absent answer `(0, 0)` instead of
resolving to the inserted pointer. -/
theorem order4_fourth_insert_does_not_split :
    treeIns4.2 = .ok () ∧ treeS4 = treeS3 ∧
    (BPlusTree.readNode treeS4 1).toOption.map (fun n => (n.isLeaf, n.keys)) =
      some (true, ["a", "b", "c"]) ∧
    treeIns5.2 = .ok () ∧ treeS5 = treeS4 ∧
    BPlusTree.Find treeS5 1 "e" = .ok (0, 0) := by
  decide

/-- C3: inserting "user:1" twice: the first facade insert succeeds, the
second fails with the duplicate-key error and leaves the database state
untouched, and Get("user:1") still returns the record whose data field is
"X". -/
theorem duplicate_insert_rejected_scenario :
    c3step1.2 = .ok () ∧
    c3step2.2 = .error "record with ID user:1 already exists" ∧
    c3step2.1 = c3db1 ∧
    Database.Get c3db1 "user:1" = .ok (some { entryIndex := 1, fields := ["user:1", "X"] }) := by
  decide

/-- C4 counterexample: the round trip is not the identity for every page.
Writing a page whose payload holds the reserved key `Type` (value "X") into
a fresh store and reading it back yields a page whose header type is "X" and
whose payload is empty — both header and payload differ from what was
written. -/
theorem writePage_readPage_roundtrip_counterexample :
    c4roundtrip.toOption.map (fun p => (p.header.pageID, p.header.pageLSN, p.header.pageType, p.data)) =
      some (1, 0, "X", []) ∧
    c4page.header.pageType = "Data" ∧ c4page.data = [("Type", "X")] ∧
    c4roundtrip ≠ .ok c4page := by
  decide

/-- C5 counterexample: `ReadPage` does not fail whenever no matching section
exists.  In a store holding only page 21, no section for page 2 exists (no
line reads `PageID: 2`), yet `ReadPage 2` succeeds — the marker search is a
substring match and `PageID: 2` occurs inside `PageID: 21`, so page 21's
section is decoded and returned as page 2. -/
theorem readPage_succeeds_without_matching_section :
    (c5st.ReadPage 2).isOk = true ∧
    c5st.lines.all (fun l => l ≠ "PageID: 2") = true ∧
    (c5st.ReadPage 2).toOption.map (fun p => (p.header.pageID, p.data)) =
      some (2, [("EntryIndex", "1")]) := by
  decide

/-- C6: the free-page list mutation performed by `AllocatePage` is not
reflected in persisted metadata.  Opening a file whose header queues freed
page 5, allocating (which consumes id 5 from the in-memory list), leaves the
file bytes untouched — so reopening the same file resurrects id 5 into the
free list. -/
theorem allocatePage_free_list_not_persisted :
    c6st.pageCount = 7 ∧ c6st.deallocatedPages = [5] ∧
    c6alloc.2.header.pageID = 5 ∧
    c6alloc.1.deallocatedPages = [] ∧
    c6alloc.1.lines = c6file ∧
    c6file.contains "DEALLOCATED_PAGES=5" = true ∧
    (NewTextFileHandler (some c6alloc.1.lines)).deallocatedPages = [5] := by
  decide

/-- C8 counterexample: the keys of a node are not strictly ascending after
every Insert.  `BPlusTree.Insert` performs no duplicate check, so inserting
"a" into a root leaf that already holds "a" succeeds and leaves the node
with keys `["a", "a"]`, which is not strictly ascending. -/
theorem duplicate_insert_breaks_strict_ascending :
    treeDupIns.2 = .ok () ∧
    (BPlusTree.readNode treeDupIns.1 1).toOption.map (fun n => n.keys) = some ["a", "a"] ∧
    strictAsc ["a", "a"] = false := by
  decide

/-- Helper: the first-match scan finds nothing when the key is absent. -/
theorem findKeyIdx_eq_none (keys : List String) (key : String) (h : key ∉ keys) :
    findKeyIdx keys key = none := by
  induction keys with
  | nil => rfl
  | cons k rest ih =>
    unfold findKeyIdx
    rw [if_neg (by intro hk; exact h (hk ▸ List.mem_cons_self k rest))]
    rw [ih (fun hm => h (List.mem_cons_of_mem k hm))]
    rfl

/-- C9: when the root node is a leaf and the key is absent, `BPlusTree.Find`
returns `(0, 0)` with no error, and `Database.Get` returns no record and no
error: absence is signalled in-band, not as a NotFound error. -/
theorem find_absent_returns_inband_zero (st : TextFileHandler) (root : Nat) (key : String)
    (node : BTreeNode)
    (hread : BPlusTree.readNode st root = .ok node)
    (hleaf : node.isLeaf = true)
    (habs : key ∉ node.keys) :
    BPlusTree.Find st root key = .ok (0, 0) ∧
    Database.Get { fileHandler := st, rootPageID := root } key = .ok none := by
  have hfind : BPlusTree.Find st root key = .ok (0, 0) := by
    unfold BPlusTree.Find
    rw [hread]
    simp only [hleaf, Bool.not_true, Bool.false_eq_true, if_false]
    rw [findKeyIdx_eq_none _ _ habs]
  refine ⟨hfind, ?_⟩
  unfold Database.Get
  rw [hfind]
  simp

/-- C9 witness: in the store whose root leaf holds "a", "b", "c", the absent
key "q" yields the in-band zero answer from Find and a nil record with nil
error from Get. -/
theorem find_absent_returns_inband_zero_witness :
    BPlusTree.Find treeS3 1 "q" = .ok (0, 0) ∧
    Database.Get { fileHandler := treeS3, rootPageID := 1 } "q" = .ok none :=
  find_absent_returns_inband_zero treeS3 1 "q" _ rfl (by decide) (by decide)

/-- C10: whenever the root node is not a leaf, or is a leaf already holding
`BTreeOrder - 1 = 3` keys, `BPlusTree.Insert` reports success while writing
nothing: the handler state (including the file) is returned unchanged and
the key and pointer are discarded. -/
theorem insert_full_or_nonleaf_is_silent_noop (st : TextFileHandler) (root : Nat)
    (key : String) (pid eidx : Nat) (node : BTreeNode)
    (hread : BPlusTree.readNode st root = .ok node)
    (hfull : node.isLeaf = false ∨ node.keys.length = BTreeOrder - 1) :
    BPlusTree.Insert st root key pid eidx = (st, .ok ()) := by
  unfold BPlusTree.Insert
  rw [hread]
  have hcond : (node.isLeaf && decide (node.keys.length < BTreeOrder - 1)) = false := by
    rcases hfull with h | h
    · simp [h]
    · simp [h]
  simp [hcond]

/-- C10 witness: inserting "z" into the store whose root leaf already holds
three keys returns success and the unchanged store. -/
theorem insert_full_or_nonleaf_is_silent_noop_witness :
    BPlusTree.Insert treeS3 1 "z" 9 9 = (treeS3, .ok ()) :=
  insert_full_or_nonleaf_is_silent_noop treeS3 1 "z" 9 9 _ rfl (Or.inr (by decide))

/-- C7: deleting a key the index resolves to page 0 (absent) fails with the
not-found error and leaves the database state — hence every Get answer —
exactly as before the call. -/
theorem delete_absent_fails_notfound (db : Database) (id : String)
    (h : findsAbsent db id = true) :
    Database.Delete db id = (db, .error ("record with ID " ++ id ++ " not found")) ∧
    ∀ k, Database.Get (Database.Delete db id).1 k = Database.Get db k := by
  unfold findsAbsent at h
  have hdel : Database.Delete db id = (db, .error ("record with ID " ++ id ++ " not found")) := by
    unfold Database.Delete
    cases hf : BPlusTree.Find db.fileHandler db.rootPageID id with
    | error e => rw [hf] at h; simp at h
    | ok p =>
      rw [hf] at h
      have hp : p.1 = 0 := of_decide_eq_true h
      obtain ⟨p1, p2⟩ := p
      simp only at hp
      subst hp
      simp
  exact ⟨hdel, fun k => by rw [hdel]⟩

/-- C7 witness: deleting the absent key "nope" from the database holding
"user:1" fails with the not-found error and returns the unchanged state. -/
theorem delete_absent_fails_notfound_witness :
    Database.Delete c3db1 "nope" = (c3db1, .error "record with ID nope not found") :=
  (delete_absent_fails_notfound c3db1 "nope" (by decide)).1

/-- Helper: the `PageFound` flag produced by the `ReadPage` scanner is true
exactly when it started true or some scanned line contains the marker (the
loop can only break after the flag is already set). -/
theorem readPageScan_found_iff (marker : String) :
    ∀ (ls : List String) (found inTarget : Bool) (pg : Page),
    (inTarget = true → found = true) →
    ((readPageScan marker ls found inTarget pg).1 = true ↔
      (found = true ∨ ∃ l ∈ ls, containsStr l marker = true)) := by
  intro ls
  induction ls with
  | nil =>
    intro found inTarget pg hinv
    simp [readPageScan]
  | cons line rest ih =>
    intro found inTarget pg hinv
    unfold readPageScan
    by_cases hbreak : (startsWithStr line PageSection && inTarget) = true
    · rw [if_pos hbreak]
      constructor
      · intro h; exact Or.inl h
      · intro _
        have hT : inTarget = true := by
          cases inTarget
          · simp at hbreak
          · rfl
        exact hinv hT
    · rw [if_neg hbreak]
      rw [ih (found || containsStr line marker) (inTarget || containsStr line marker) _
          (by intro h
              cases found
              · cases hct : containsStr line marker
                · rw [hct] at h
                  simp at h
                  exact absurd (hinv h) (by simp)
                · simp [hct]
              · simp)]
      rw [List.exists_mem_cons_iff]
      cases found <;> cases hct : containsStr line marker <;> simp [hct]
  
/-- C5 (amended): `ReadPage(id)` fails exactly when id is 0, id exceeds the
recorded page count, or no line of the file contains `PageID: <id>` as a
substring (the code's notion of a matching section); otherwise it returns a
decoded page. -/
theorem readPage_error_iff (st : TextFileHandler) (pid : Nat) :
    (st.ReadPage pid).isOk = false ↔
      (pid = 0 ∨ st.pageCount < pid ∨
        ∀ l ∈ st.lines, containsStr l ("PageID: " ++ natPrint pid) = false) := by
  unfold TextFileHandler.ReadPage
  by_cases h0 : pid = 0
  · rw [if_pos (by simp [h0])]
    simp [Except.isOk, Except.toBool, h0]
  by_cases hc : st.pageCount < pid
  · rw [if_pos (by simp [hc])]
    simp [Except.isOk, Except.toBool, hc]
  rw [if_neg (by simp [h0, hc])]
  simp only [Except.isOk]
  have hiff := readPageScan_found_iff ("PageID: " ++ natPrint pid) st.lines false false
    { header := { pageLSN := 0, pageID := pid, pageType := "" }, data := [] } (by simp)
  rcases hscan : readPageScan ("PageID: " ++ natPrint pid) st.lines false false
      { header := { pageLSN := 0, pageID := pid, pageType := "" }, data := [] } with ⟨fnd, pg⟩
  rw [hscan] at hiff
  cases fnd
  · simp only [Except.isOk, Except.toBool]
    simp only [Bool.false_eq_true, false_iff, false_or] at hiff
    push_neg at hiff
    constructor
    · intro _
      refine Or.inr (Or.inr ?_)
      intro l hl
      have := hiff l hl
      simpa using this
    · intro _
      trivial
  · simp only [Except.isOk, Except.toBool]
    simp at hiff
    obtain ⟨l, hl, hcont⟩ := hiff
    constructor
    · intro h
      exact absurd h (by simp)
    · intro h
      rcases h with h | h | h
      · exact absurd h h0
      · exact absurd h hc
      · rw [h l hl] at hcont
        exact absurd hcont (by simp)

/-- Helper: Go string order on character lists is transitive. -/
theorem goLtC_trans : ∀ a b c, goLtC a b = true → goLtC b c = true → goLtC a c = true := by
  intro a
  induction a with
  | nil =>
    intro b c hab hbc
    cases b with
    | nil => simp [goLtC] at hab
    | cons x xs =>
      cases c with
      | nil => simp [goLtC] at hbc
      | cons y ys => simp [goLtC]
  | cons x xs ih =>
    intro b c hab hbc
    cases b with
    | nil => simp [goLtC] at hab
    | cons y ys =>
      cases c with
      | nil => simp [goLtC] at hbc
      | cons z zs =>
        simp only [goLtC] at hab hbc ⊢
        split at hab
        · rename_i hxy
          split at hbc
          · rename_i hyz
            simp [Nat.lt_trans hxy hyz]
          · split at hbc
            · simp at hbc
            · rename_i h1 h2
              have hyz : y.toNat = z.toNat := by omega
              simp [hyz ▸ hxy]
        · split at hab
          · simp at hab
          · rename_i h1 h2
            have hxy : x.toNat = y.toNat := by omega
            split at hbc
            · rename_i hyz
              simp [hxy ▸ hyz]
            · split at hbc
              · simp at hbc
              · rename_i h3 h4
                have hyz : y.toNat = z.toNat := by omega
                rw [hxy, hyz]
                simp [ih ys zs hab hbc]

/-- Helper: transitivity of the Go string comparison. -/
theorem goLt_trans (a b c : String) (hab : goLt a b = true) (hbc : goLt b c = true) :
    goLt a c = true :=
  goLtC_trans a.toList b.toList c.toList hab hbc

/-- Helper: character lists incomparable in both directions are equal. -/
theorem goLtC_eq_of_not : ∀ a b, goLtC a b = false → goLtC b a = false → a = b := by
  intro a
  induction a with
  | nil =>
    intro b hab _
    cases b with
    | nil => rfl
    | cons y ys => simp [goLtC] at hab
  | cons x xs ih =>
    intro b hab hba
    cases b with
    | nil => simp [goLtC] at hba
    | cons y ys =>
      simp only [goLtC] at hab hba
      split at hab
      · simp at hab
      · split at hab
        · rename_i h1 h2
          rw [if_pos h2] at hba
          simp at hba
        · rename_i h1 h2
          have hxy : x = y := by
            have hv : x.toNat = y.toNat := by omega
            have : x.val = y.val := by
              apply UInt32.ext
              exact hv
            exact Char.eq_of_val_eq this
          rw [if_neg h2, if_neg h1] at hba
          rw [hxy, ih ys hab hba]

/-- Helper: strings incomparable in both directions are equal. -/
theorem goLt_eq_of_not (a b : String) (hab : goLt a b = false) (hba : goLt b a = false) :
    a = b := by
  have h := goLtC_eq_of_not a.toList b.toList hab hba
  cases a with
  | mk d1 =>
    cases b with
    | mk d2 => exact congrArg String.mk h

/-- Helper: the chain test `strictAsc` and `Pairwise` under `goLt` agree. -/
theorem strictAsc_iff_pairwise (l : List String) :
    strictAsc l = true ↔ l.Pairwise (fun a b => goLt a b = true) := by
  induction l with
  | nil => simp [strictAsc]
  | cons a rest ih =>
    cases rest with
    | nil => simp [strictAsc]
    | cons b rest2 =>
      rw [List.pairwise_cons]
      unfold strictAsc
      rw [Bool.and_eq_true, ih]
      constructor
      · rintro ⟨hab, hp⟩
        refine ⟨?_, hp⟩
        intro c hc
        rcases List.mem_cons.mp hc with rfl | hc2
        · exact hab
        · have hbc : goLt b c = true := (List.pairwise_cons.mp hp).1 c hc2
          exact goLt_trans a b c hab hbc
      · rintro ⟨hall, hp⟩
        exact ⟨hall b (List.mem_cons_self b rest2), hp⟩

/-- Helper: invariant of the `sort.Search` binary-search loop on a sorted key
list — with enough fuel the result stays within the interval, everything
before it is below the key and everything from it on is not. -/
theorem searchLoop_bounds (keys : List String) (key : String) :
    ∀ (fuel i j : Nat), i ≤ j → j ≤ keys.length → j - i ≤ fuel →
    keys.Pairwise (fun a b => goLt a b = true) →
    (∀ t, t < i → goLt (keys.getD t "") key = true) →
    (∀ t, j ≤ t → t < keys.length → goLt (keys.getD t "") key = false) →
    i ≤ searchLoop keys key fuel i j ∧ searchLoop keys key fuel i j ≤ j ∧
    (∀ t, t < searchLoop keys key fuel i j → goLt (keys.getD t "") key = true) ∧
    (∀ t, searchLoop keys key fuel i j ≤ t → t < keys.length →
      goLt (keys.getD t "") key = false) := by
  intro fuel
  induction fuel with
  | zero =>
    intro i j hij hjlen hfuel hp hpre hpost
    have hieq : i = j := by omega
    subst hieq
    exact ⟨Nat.le_refl i, Nat.le_refl i, hpre, hpost⟩
  | succ fuel ih =>
    intro i j hij hjlen hfuel hp hpre hpost
    unfold searchLoop
    by_cases hlt : i < j
    · rw [if_pos hlt]
      have hhi : i ≤ (i + j) / 2 := (Nat.le_div_iff_mul_le (by omega)).mpr (by omega)
      have hhj : (i + j) / 2 < j := (Nat.div_lt_iff_lt_mul (by omega)).mpr (by omega)
      have hhlen : (i + j) / 2 < keys.length := by omega
      by_cases hcmp : goLt (keys.getD ((i + j) / 2) "") key = true
      · rw [if_pos hcmp]
        have hpre2 : ∀ t, t < (i + j) / 2 + 1 → goLt (keys.getD t "") key = true := by
          intro t ht
          rcases Nat.lt_or_ge t ((i + j) / 2) with htm | htm
          · have htlen : t < keys.length := by omega
            have hfact : goLt keys[t] (keys[(i + j) / 2]) = true :=
              List.pairwise_iff_getElem.mp hp t ((i + j) / 2) htlen hhlen htm
            rw [List.getD_eq_getElem keys "" htlen]
            rw [List.getD_eq_getElem keys "" hhlen] at hcmp
            exact goLt_trans _ _ _ hfact hcmp
          · have hteq : t = (i + j) / 2 := by omega
            rw [hteq]
            exact hcmp
        obtain ⟨hr1, hr2, hr3, hr4⟩ :=
          ih ((i + j) / 2 + 1) j (by omega) hjlen (by omega) hp hpre2 hpost
        exact ⟨by omega, hr2, hr3, hr4⟩
      · rw [if_neg hcmp]
        rw [Bool.not_eq_true] at hcmp
        have hpost2 : ∀ t, (i + j) / 2 ≤ t → t < keys.length →
            goLt (keys.getD t "") key = false := by
          intro t ht htlen
          rcases Nat.lt_or_ge ((i + j) / 2) t with htm | htm
          · cases htt : goLt (keys.getD t "") key with
            | false => rfl
            | true =>
              have hfact : goLt (keys[(i + j) / 2]) keys[t] = true :=
                List.pairwise_iff_getElem.mp hp ((i + j) / 2) t hhlen htlen htm
              rw [List.getD_eq_getElem keys "" htlen] at htt
              have hmid : goLt (keys[(i + j) / 2]) key = true :=
                goLt_trans _ _ _ hfact htt
              rw [List.getD_eq_getElem keys "" hhlen] at hcmp
              rw [hmid] at hcmp
              cases hcmp
          · have hteq : t = (i + j) / 2 := by omega
            rw [hteq]
            exact hcmp
        obtain ⟨hr1, hr2, hr3, hr4⟩ :=
          ih i ((i + j) / 2) hhi (by omega) (by omega) hp hpre hpost2
        exact ⟨hr1, by omega, hr3, hr4⟩
    · rw [if_neg hlt]
      have hieq : i = j := by omega
      exact ⟨Nat.le_refl i, by omega, hpre, by rw [← hieq] at hpost; exact hpost⟩

/-- Helper: specification of `searchStrings` on a sorted key list: it returns
a position within the list bounds such that all earlier keys are below the
searched key and no later key is. -/
theorem searchStrings_spec (keys : List String) (key : String)
    (hp : keys.Pairwise (fun a b => goLt a b = true)) :
    searchStrings keys key ≤ keys.length ∧
    (∀ t, t < searchStrings keys key → goLt (keys.getD t "") key = true) ∧
    (∀ t, searchStrings keys key ≤ t → t < keys.length →
      goLt (keys.getD t "") key = false) := by
  have h := searchLoop_bounds keys key keys.length 0 keys.length (Nat.zero_le _)
    (Nat.le_refl _) (by omega) hp
    (by intro t ht; exact absurd ht (Nat.not_lt_zero t))
    (by intro t h1 h2; exact absurd (Nat.lt_of_le_of_lt h1 h2) (Nat.lt_irrefl _))
  exact ⟨h.2.1, h.2.2.1, h.2.2.2⟩

/-- C8 (amended): after every Insert of a key not already present (into a
root leaf with room) and after every Delete, the keys within the node are
strictly ascending: the insertion splice of `BPlusTree.Insert` places the
key at the position found by `sort.SearchStrings`, which preserves strict
ascent for a fresh key, and the removal splice of `BPlusTree.Delete` erases
one key (and, through the same splice on the parallel list, its pointer)
without disturbing the order of the rest.  A duplicate insert breaks the
invariant (see the counterexample), so freshness is required. -/
theorem insert_delete_preserve_strict_ascending (keys : List String) (key : String) (i : Nat)
    (hsorted : strictAsc keys = true) (habs : key ∉ keys) :
    strictAsc (spliceAt keys (searchStrings keys key) key) = true ∧
    strictAsc (removeAt keys i) = true := by
  have hp : keys.Pairwise (fun a b => goLt a b = true) :=
    (strictAsc_iff_pairwise keys).mp hsorted
  constructor
  · obtain ⟨hrlen, hpre, hpost⟩ := searchStrings_spec keys key hp
    rw [strictAsc_iff_pairwise]
    unfold spliceAt
    rw [List.pairwise_append]
    refine ⟨hp.sublist (List.take_sublist _ keys), ?_, ?_⟩
    · rw [List.pairwise_cons]
      refine ⟨?_, hp.sublist (List.drop_sublist _ keys)⟩
      intro b hb
      obtain ⟨t, ht, rfl⟩ := List.mem_iff_getElem.mp hb
      rw [List.getElem_drop]
      have htlen : searchStrings keys key + t < keys.length := by
        simp only [List.length_drop] at ht
        omega
      have hfalse : goLt (keys[searchStrings keys key + t]) key = false := by
        have := hpost (searchStrings keys key + t) (by omega) htlen
        rwa [List.getD_eq_getElem keys "" htlen] at this
      cases hkb : goLt key (keys[searchStrings keys key + t]) with
      | true => rfl
      | false =>
        have heq := goLt_eq_of_not _ _ hfalse hkb
        exact absurd (heq ▸ (List.getElem_mem htlen)) habs
    · intro a ha b hb
      obtain ⟨t, ht, rfl⟩ := List.mem_iff_getElem.mp ha
      rw [List.getElem_take]
      have htr : t < searchStrings keys key := by
        simp only [List.length_take] at ht
        omega
      have htlen : t < keys.length := by omega
      have hak : goLt keys[t] key = true := by
        have := hpre t htr
        rwa [List.getD_eq_getElem keys "" htlen] at this
      rcases List.mem_cons.mp hb with rfl | hb2
      · exact hak
      · obtain ⟨u, hu, rfl⟩ := List.mem_iff_getElem.mp hb2
        rw [List.getElem_drop]
        have hulen : searchStrings keys key + u < keys.length := by
          simp only [List.length_drop] at hu
          omega
        exact List.pairwise_iff_getElem.mp hp t (searchStrings keys key + u) htlen hulen
          (by omega)
  · rw [strictAsc_iff_pairwise]
    refine hp.sublist ?_
    unfold removeAt
    conv_rhs => rw [← List.take_append_drop i keys]
    apply List.Sublist.append_left
    have h1 : keys.drop (i + 1) = (keys.drop i).drop 1 := by
      rw [List.drop_drop]
    rw [h1, List.drop_one]
    exact List.tail_sublist _

/-- C8 witness: inserting the fresh key "b" into the sorted keys
`["a", "c"]` at the searched position keeps them strictly ascending, as does
removing index 1. -/
theorem insert_delete_preserve_strict_ascending_witness :
    strictAsc (spliceAt ["a", "c"] (searchStrings ["a", "c"] "b") "b") = true ∧
    strictAsc (removeAt ["a", "c"] 1) = true :=
  insert_delete_preserve_strict_ascending ["a", "c"] "b" 1 (by decide) (by decide)

/-- Helper: character list of an appended string. -/
theorem toList_append (a b : String) : (a ++ b).toList = a.toList ++ b.toList := by
  cases a with
  | mk d1 =>
    cases b with
    | mk d2 => rfl

/-- Helper: `dropWhile` is the identity when no element satisfies the test. -/
theorem dropWhile_all_not (p : Char → Bool) (l : List Char) (h : ∀ c ∈ l, p c = false) :
    l.dropWhile p = l := by
  cases l with
  | nil => rfl
  | cons c rest =>
    rw [List.dropWhile_cons_of_neg]
    simp [h c (List.mem_cons_self c rest)]

/-- Helper: trimming a string with no whitespace characters is the identity. -/
theorem trimStr_of_no_space (s : String) (h : ∀ c ∈ s.toList, goIsSpace c = false) :
    trimStr s = s := by
  unfold trimStr
  rw [dropWhile_all_not goIsSpace s.toList h]
  rw [dropWhile_all_not goIsSpace s.toList.reverse
    (fun c hc => h c (List.mem_reverse.mp hc))]
  rw [List.reverse_reverse]
  cases s with
  | mk d => rfl

/-- Helper: every character printed by `natPrintAux` is a decimal digit. -/
theorem natPrintAux_digits : ∀ (fuel n : Nat), ∀ c ∈ natPrintAux fuel n, c.isDigit = true := by
  intro fuel
  induction fuel with
  | zero => intro n c hc; simp [natPrintAux] at hc
  | succ fuel ih =>
    intro n c hc
    unfold natPrintAux at hc
    by_cases hn : n < 10
    · rw [if_pos hn] at hc
      simp only [List.mem_singleton] at hc
      subst hc
      interval_cases n <;> decide
    · rw [if_neg hn] at hc
      rcases List.mem_append.mp hc with hc1 | hc2
      · exact ih (n / 10) c hc1
      · simp only [List.mem_singleton] at hc2
        subst hc2
        have hm : n % 10 < 10 := Nat.mod_lt n (by omega)
        set m := n % 10 with hmm
        interval_cases m <;> decide

/-- Helper: digits are not whitespace. -/
theorem digit_not_space (c : Char) (h : c.isDigit = true) : goIsSpace c = false := by
  unfold Char.isDigit at h
  simp only [Bool.and_eq_true, decide_eq_true_eq] at h
  unfold goIsSpace
  have h1 : c ≠ ' ' := by intro he; subst he; simp at h
  have h2 : c ≠ '\t' := by intro he; subst he; simp at h
  have h3 : c ≠ '\n' := by intro he; subst he; simp at h
  have h4 : c ≠ '\r' := by intro he; subst he; simp at h
  simp [h1, h2, h3, h4]

/-- Helper: the digit run printed by `natPrintAux` is never empty. -/
theorem natPrintAux_ne_nil (fuel n : Nat) : natPrintAux (fuel + 1) n ≠ [] := by
  unfold natPrintAux
  by_cases hn : n < 10
  · rw [if_pos hn]; simp
  · rw [if_neg hn]; simp

/-- Helper: value of a digit list extended by one digit. -/
theorem digitsVal_append_one (l : List Char) (c : Char) :
    digitsVal (l ++ [c]) = 10 * digitsVal l + digitVal c := by
  unfold digitsVal
  rw [List.foldl_append]
  rfl

/-- Helper: `digitsVal` inverts `natPrintAux` given sufficient fuel. -/
theorem digitsVal_natPrintAux : ∀ (fuel n : Nat), n < fuel →
    digitsVal (natPrintAux fuel n) = n := by
  intro fuel
  induction fuel with
  | zero => intro n hn; omega
  | succ fuel ih =>
    intro n hn
    unfold natPrintAux
    by_cases h10 : n < 10
    · rw [if_pos h10]
      show digitsVal [Char.ofNat (48 + n)] = n
      have : digitVal (Char.ofNat (48 + n)) = n := by interval_cases n <;> decide
      unfold digitsVal
      simp [List.foldl, this]
    · rw [if_neg h10]
      rw [digitsVal_append_one]
      have hdiv : n / 10 < fuel := by
        have : n / 10 < n := Nat.div_lt_self (by omega) (by omega)
        omega
      rw [ih (n / 10) hdiv]
      have hm : n % 10 < 10 := Nat.mod_lt n (by omega)
      have : digitVal (Char.ofNat (48 + n % 10)) = n % 10 := by
        set m := n % 10 with hmm
        interval_cases m <;> decide
      rw [this]
      omega

/-- Helper: trimming a printed number is the identity. -/
theorem trimStr_natPrint (n : Nat) : trimStr (natPrint n) = natPrint n := by
  apply trimStr_of_no_space
  intro c hc
  exact digit_not_space c (natPrintAux_digits (n + 1) n c hc)

/-- Helper: scanning a printed number with `%d` recovers the number. -/
theorem parseNatOr_natPrint (cur n : Nat) : parseNatOr cur (natPrint n) = n := by
  unfold parseNatOr natPrint
  have htl : (String.mk (natPrintAux (n + 1) n)).toList = natPrintAux (n + 1) n := rfl
  rw [htl]
  rw [List.takeWhile_eq_self_iff.mpr (natPrintAux_digits (n + 1) n)]
  rw [if_neg (by simp [natPrintAux_ne_nil n n])]
  exact digitsVal_natPrintAux (n + 1) n (by omega)

/-- Helper: splitting `k ++ ": " ++ v` at the first `": "` yields `(k, v)`
when `k` itself does not contain the separator. -/
theorem splitCharsFirst_junction : ∀ (kl vl : List Char), infixOfC [':', ' '] kl = false →
    splitCharsFirst [':', ' '] (kl ++ ':' :: ' ' :: vl) = some (kl, vl) := by
  intro kl
  induction kl with
  | nil =>
    intro vl _
    simp only [List.nil_append, splitCharsFirst]
    rw [if_pos (by simp [List.isPrefixOf])]
    rfl
  | cons c kl' ih =>
    intro vl h
    unfold infixOfC at h
    rw [Bool.or_eq_false_iff] at h
    obtain ⟨h1, h2⟩ := h
    simp only [List.cons_append, splitCharsFirst]
    rw [if_neg ?hpre]
    case hpre =>
      intro hpref
      cases kl' with
      | nil =>
        simp [List.isPrefixOf] at hpref
      | cons d kl'' =>
        simp [List.isPrefixOf] at hpref h1
        exact h1 hpref.1 hpref.2
    rw [show kl'.append (':' :: ' ' :: vl) = kl' ++ ':' :: ' ' :: vl from rfl]
    rw [ih vl h2]
    rfl

/-- Helper: string version of the junction split. -/
theorem splitFirst_junction (k v : String) (h : containsStr k ": " = false) :
    splitFirst (k ++ ": " ++ v) ": " = some (k, v) := by
  unfold splitFirst
  have hsep : (": " : String).toList = [':', ' '] := rfl
  have htl : (k ++ ": " ++ v).toList = k.toList ++ ':' :: ' ' :: v.toList := by
    rw [toList_append, toList_append]
    simp
  rw [hsep, htl]
  rw [splitCharsFirst_junction k.toList v.toList h]
  cases k with
  | mk kd =>
    cases v with
    | mk vd => rfl

/-- Helper: a serialized payload line is never the empty string. -/
theorem sep_line_ne_empty (k v : String) : (k ++ ": " ++ v) ≠ "" := by
  intro h
  have hlen := congrArg String.length h
  rw [String.length_append, String.length_append] at hlen
  rw [show (": " : String).length = 2 from rfl, show ("" : String).length = 0 from rfl] at hlen
  omega

/-- Helper: parsing a well-formed payload line inside the target section
stores the pair in the payload map and touches nothing else. -/
theorem readPageLine_entry (pg : Page) (k v : String) (h : WfEntry k v) :
    readPageLine pg (k ++ ": " ++ v) = { pg with data := mapInsert pg.data k v } := by
  obtain ⟨hk, hv, hsep, hL, hT, hP, _⟩ := h
  unfold readPageLine
  rw [splitFirst_junction k v hsep]
  simp only
  rw [hk, hv]
  rw [if_neg hL, if_neg hT, if_neg hP]

/-- Helper: inserting an absent key into the map model appends it. -/
theorem mapInsert_absent (m : List (String × String)) (k v : String)
    (h : mapLookup m k = none) : mapInsert m k v = m ++ [(k, v)] := by
  induction m with
  | nil => rfl
  | cons p rest ih =>
    obtain ⟨k0, v0⟩ := p
    simp only [mapLookup] at h
    simp only [mapInsert]
    by_cases he : k0 = k
    · rw [if_pos he] at h; cases h
    · rw [if_neg he] at h
      rw [if_neg he, ih h]
      rfl

/-- Helper: a lookup misses an appended map when it misses both parts. -/
theorem mapLookup_append_none (a b : List (String × String)) (k : String)
    (ha : mapLookup a k = none) (hb : mapLookup b k = none) :
    mapLookup (a ++ b) k = none := by
  induction a with
  | nil => exact hb
  | cons p rest ih =>
    obtain ⟨k0, v0⟩ := p
    simp only [mapLookup] at ha ⊢
    by_cases he : k0 = k
    · rw [if_pos he] at ha; cases ha
    · rw [if_neg he] at ha ⊢
      exact ih ha

/-- Helper: folding map inserts of pairwise-fresh keys appends them in
order. -/
theorem foldl_mapInsert_append : ∀ (rest : List (String × String)) (acc : List (String × String)),
    (∀ p ∈ rest, mapLookup acc p.1 = none) → (rest.map Prod.fst).Nodup →
    rest.foldl (fun d kv => mapInsert d kv.1 kv.2) acc = acc ++ rest := by
  intro rest
  induction rest with
  | nil => intro acc _ _; simp
  | cons p rest' ih =>
    intro acc hfresh hnodup
    obtain ⟨k, v⟩ := p
    simp only [List.foldl_cons]
    rw [mapInsert_absent acc k v (hfresh (k, v) (List.mem_cons_self _ _))]
    rw [List.map_cons, List.nodup_cons] at hnodup
    rw [ih (acc ++ [(k, v)]) ?hfresh2 hnodup.2]
    · simp
    case hfresh2 =>
      intro q hq
      apply mapLookup_append_none
      · exact hfresh q (List.mem_cons_of_mem _ hq)
      · have hne : ¬ k = q.1 := by
          intro he
          have hq1 : q.1 ∈ rest'.map Prod.fst := List.mem_map.mpr ⟨q, hq, rfl⟩
          rw [← he] at hq1
          exact hnodup.1 hq1
        simp only [mapLookup]
        rw [if_neg hne]

/-- Helper: one `ReadPage` scanner step on a nonempty non-marker line inside
the target section parses the line and keeps scanning. -/
theorem readPageScan_step_in_target (marker line : String) (ls : List String) (pg : Page)
    (hns : startsWithStr line PageSection = false) (hne : line ≠ "") :
    readPageScan marker (line :: ls) true true pg =
      readPageScan marker ls true true (readPageLine pg line) := by
  simp only [readPageScan]
  rw [hns]
  simp [decide_eq_true hne]

/-- Helper: parsing the serialized `LSN` line recovers the sequence number. -/
theorem readPageLine_LSN (pg : Page) (n : Nat) :
    readPageLine pg ("LSN: " ++ natPrint n) =
      { pg with header := { pg.header with pageLSN := n } } := by
  rw [show ("LSN: " ++ natPrint n) = "LSN" ++ ": " ++ natPrint n from rfl]
  unfold readPageLine
  rw [splitFirst_junction "LSN" (natPrint n) (by decide)]
  simp only
  rw [show trimStr "LSN" = "LSN" from rfl]
  rw [if_pos rfl]
  rw [trimStr_natPrint, parseNatOr_natPrint]

/-- Helper: parsing the serialized `Type` line recovers a trimmed page type. -/
theorem readPageLine_type (pg : Page) (t : String) (ht : trimStr t = t) :
    readPageLine pg ("Type: " ++ t) =
      { pg with header := { pg.header with pageType := t } } := by
  rw [show ("Type: " ++ t) = "Type" ++ ": " ++ t from rfl]
  unfold readPageLine
  rw [splitFirst_junction "Type" t (by decide)]
  simp only
  rw [show trimStr "Type" = "Type" from rfl]
  rw [if_neg (by decide), if_pos rfl, ht]

/-- Helper: scanning the serialized well-formed payload lines inside the
target section folds the entries into the payload map. -/
theorem readPageScan_entries (marker : String) :
    ∀ (rest : List (String × String)) (pg : Page),
    (∀ p ∈ rest, WfEntry p.1 p.2) →
    readPageScan marker (rest.map (fun kv => kv.1 ++ ": " ++ kv.2)) true true pg =
      (true, { pg with data := rest.foldl (fun d kv => mapInsert d kv.1 kv.2) pg.data }) := by
  intro rest
  induction rest with
  | nil =>
    intro pg _
    simp [readPageScan]
  | cons p rest' ih =>
    intro pg hwf
    obtain ⟨k, v⟩ := p
    have hwf1 : WfEntry k v := hwf (k, v) (List.mem_cons_self _ _)
    simp only [List.map_cons]
    rw [readPageScan_step_in_target marker (k ++ ": " ++ v) _ pg
      hwf1.2.2.2.2.2.2 (sep_line_ne_empty k v)]
    rw [readPageLine_entry pg k v hwf1]
    rw [ih _ (fun q hq => hwf q (List.mem_cons_of_mem _ hq))]
    rfl

/-- C4 (amended): `WritePage` followed by `ReadPage` on the same id is the
identity on the page for every page written into a freshly created store,
provided the payload is well formed: keys and values already trimmed, keys
free of the `": "` separator and of the reserved header keys `LSN`, `Type`
and `PageID`, no serialized payload line starting with the section marker,
distinct keys, and a trimmed page type.  (A payload using a reserved key
breaks the round trip — see the counterexample.) -/
theorem writePage_readPage_roundtrip_wf (lsn : Nat) (t : String) (data : List (String × String))
    (ht : trimStr t = t)
    (hdata : ∀ p ∈ data, WfEntry p.1 p.2)
    (hnodup : (data.map Prod.fst).Nodup) :
    ∃ st2,
      ((NewTextFileHandler none).AllocatePage).1.WritePage
          { header := { pageLSN := lsn, pageID := 1, pageType := t }, data := data } =
        .ok st2 ∧
      st2.ReadPage 1 =
        .ok { header := { pageLSN := lsn, pageID := 1, pageType := t }, data := data } := by
  refine ⟨{ lines := initialLines ++ [""] ++ pageLines
              { header := { pageLSN := lsn, pageID := 1, pageType := t }, data := data },
            pageSize := 4096, pageCount := 1, deallocatedPages := [] }, rfl, ?_⟩
  unfold TextFileHandler.ReadPage
  rw [if_neg (by simp)]
  simp only
  rw [show readPageScan ("PageID: " ++ natPrint 1)
        (initialLines ++ [""] ++ pageLines
          { header := { pageLSN := lsn, pageID := 1, pageType := t }, data := data })
        false false { header := { pageLSN := 0, pageID := 1, pageType := "" }, data := [] } =
      readPageScan ("PageID: " ++ natPrint 1)
        (("LSN: " ++ natPrint lsn) :: ("Type: " ++ t) ::
          data.map (fun kv => kv.1 ++ ": " ++ kv.2))
        true true { header := { pageLSN := 0, pageID := 1, pageType := "" }, data := [] }
      from rfl]
  rw [readPageScan_step_in_target ("PageID: " ++ natPrint 1) ("LSN: " ++ natPrint lsn) _ _ rfl
    (by rw [show ("LSN: " ++ natPrint lsn) = "LSN" ++ ": " ++ natPrint lsn from rfl]
        exact sep_line_ne_empty _ _)]
  rw [readPageLine_LSN]
  rw [readPageScan_step_in_target ("PageID: " ++ natPrint 1) ("Type: " ++ t) _ _
    (by cases t with
        | mk td => rfl)
    (by rw [show ("Type: " ++ t) = "Type" ++ ": " ++ t from rfl]
        exact sep_line_ne_empty _ _)]
  rw [readPageLine_type _ t ht]
  rw [readPageScan_entries _ data _ hdata]
  rw [foldl_mapInsert_append data [] (fun p _ => rfl) hnodup]
  rfl

/-- C4 witness: a Data page with sequence number 7 and the payload of a
one-record data page survives the write/read round trip unchanged. -/
theorem writePage_readPage_roundtrip_wf_witness :
    ∃ st2,
      ((NewTextFileHandler none).AllocatePage).1.WritePage
          { header := { pageLSN := 7, pageID := 1, pageType := "Data" },
            data := [("EntryIndex", "1"), ("Entry-1", "user:1|X")] } = .ok st2 ∧
      st2.ReadPage 1 =
        .ok { header := { pageLSN := 7, pageID := 1, pageType := "Data" },
              data := [("EntryIndex", "1"), ("Entry-1", "user:1|X")] } :=
  writePage_readPage_roundtrip_wf 7 "Data" [("EntryIndex", "1"), ("Entry-1", "user:1|X")]
    (by decide) (by decide) (by decide)
